import Mathlib

/-!
Verification development for the TheOption scheduled-trade execution engine
(`main.py`).  The Python source is shallowly embedded: pure computations
(time-of-day parsing, trigger computation, recurrence, daily-reset state
transitions) become Lean functions over explicit state, and the stateful
`execute_trade` retry state machine becomes a function of an explicit UI
oracle that supplies the results and durations of every browser interaction.
Wall-clock time is modelled in integer milliseconds; `datetime` values are
modelled as a day index plus microseconds-within-day, compared
lexicographically, which matches the behaviour of Python naive `datetime`
comparison and `timedelta(days=1)` addition used by the source.
-/

namespace TheOption

/-! ## Python `int(...)` and time-of-day parsing (`schedule_trades`, lines 1502-1522)

`int(s)` in Python strips surrounding whitespace, accepts an optional sign,
and then requires a nonempty digit string.  (Digit-group underscores and
non-ASCII whitespace accepted by CPython are not modelled; no claim depends
on them.)  A split on a separator character mirrors `str.split(sep)`.
-/

def isSpaceChar (c : Char) : Bool :=
  c = ' ' ∨ c = '\t' ∨ c = '\n' ∨ c = '\r'

def digitsVal (ds : List Char) : Int :=
  ds.foldl (fun a c => a * 10 + ((c.toNat : Int) - ('0'.toNat : Int))) 0

def pyInt (s : String) : Option Int :=
  let l := (((s.toList.dropWhile isSpaceChar).reverse.dropWhile isSpaceChar).reverse)
  match l with
  | '-' :: ds => if ds ≠ [] ∧ ds.all Char.isDigit then some (-(digitsVal ds)) else none
  | '+' :: ds => if ds ≠ [] ∧ ds.all Char.isDigit then some (digitsVal ds) else none
  | ds => if ds ≠ [] ∧ ds.all Char.isDigit then some (digitsVal ds) else none

/-- `str.split(sep)` for a single-character separator, on a character list.
Mirrors Python semantics: the result always has at least one element, and
empty fields are kept. -/
def splitOnChar (c : Char) : List Char → List (List Char)
  | [] => [[]]
  | x :: xs =>
    let r := splitOnChar c xs
    if x = c then [] :: r
    else
      match r with
      | [] => [[x]]
      | h :: t => (x :: h) :: t

def microsPerDay : Nat := 86400000000

/-- Time-of-day in microseconds computed by `schedule_trades` /
`_trade_scheduler_thread`: the string is split on a colon, fields 0..2 are read
(extra fields are ignored, fewer raise `IndexError`), the seconds field is
split on a dot with the optional fractional field multiplied by 1000, and
`datetime.replace` validates the ranges (out-of-range values raise
`ValueError`).  `none` models the `(ValueError, IndexError)` handler. -/
def parseTimeOfDay (s : String) : Option Nat :=
  match splitOnChar ':' s.toList with
  | p0 :: p1 :: p2 :: _ =>
    match pyInt (String.mk p0), pyInt (String.mk p1) with
    | some h, some m =>
      match splitOnChar '.' p2 with
      | s0 :: rest =>
        match pyInt (String.mk s0) with
        | some sec =>
          let usOpt : Option Int :=
            match rest with
            | [] => some 0
            | ms :: _ =>
              match pyInt (String.mk ms) with
              | some v => some (v * 1000)
              | none => none
          match usOpt with
          | some us =>
            if 0 ≤ h ∧ h ≤ 23 ∧ 0 ≤ m ∧ m ≤ 59 ∧ 0 ≤ sec ∧ sec ≤ 59 ∧
                0 ≤ us ∧ us ≤ 999999 then
              some (((h.toNat * 60 + m.toNat) * 60 + sec.toNat) * 1000000 + us.toNat)
            else none
          | none => none
        | none => none
      | [] => none
    | _, _ => none
  | _ => none

/-! ## Naive datetimes -/

/-- A Python naive `datetime`: a calendar-day index and the time of day in
microseconds.  Comparison is lexicographic, `timedelta(days=1)` is `day + 1`,
and `replace(hour=..., minute=..., second=..., microsecond=...)` keeps the day
and replaces the time of day. -/
structure DT where
  day : Nat
  us : Nat
deriving DecidableEq, Repr

def DT.lt (a b : DT) : Prop := a.day < b.day ∨ (a.day = b.day ∧ a.us < b.us)

def DT.le (a b : DT) : Prop := a.day < b.day ∨ (a.day = b.day ∧ a.us ≤ b.us)

instance : LT DT := ⟨DT.lt⟩

instance : LE DT := ⟨DT.le⟩

instance (a b : DT) : Decidable (a < b) :=
  inferInstanceAs (Decidable (a.day < b.day ∨ (a.day = b.day ∧ a.us < b.us)))

instance (a b : DT) : Decidable (a ≤ b) :=
  inferInstanceAs (Decidable (a.day < b.day ∨ (a.day = b.day ∧ a.us ≤ b.us)))

def DT.addDay (t : DT) : DT := ⟨t.day + 1, t.us⟩

/-- `now.hour` in Python. -/
def DT.hour (t : DT) : Nat := t.us / 3600000000

/-! ## Trade descriptors and scheduling (`schedule_trades`, lines 1489-1541) -/

/-- One entry of `config['trading_settings']['trades']`.  Optional fields model
`dict.get` with the defaults applied inside `schedule_trades`. -/
structure RawTrade where
  time : String
  direction : String
  count : Option Nat
  amount : Option String
  trading_time : Option String
  retry_seconds : Option Nat
  comment : Option String
deriving DecidableEq, Repr

/-- A scheduled trade descriptor as appended to `self.scheduled_trades`. -/
structure Sched where
  time : DT
  direction : String
  count : Nat
  amount : String
  trading_time : String
  retry_seconds : Option Nat
  comment : String
  original_time : String
deriving DecidableEq, Repr

/-- Scheduling of a single raw trade: parse the time-of-day string, build
today's instant via `now.replace(...)`, and if that instant is not strictly
after `now`, advance it by one day (`target_time += timedelta(days=1)`).
`none` models the per-trade `(ValueError, IndexError)` handler that reports a
parse error and skips the trade. -/
def scheduleOne (now : DT) (defaultAmount defaultTime : String) (t : RawTrade) :
    Option Sched :=
  match parseTimeOfDay t.time with
  | none => none
  | some tod =>
    let today : DT := ⟨now.day, tod⟩
    let target : DT := if today ≤ now then ⟨now.day + 1, tod⟩ else today
    some { time := target
           direction := t.direction
           count := t.count.getD 1
           amount := t.amount.getD defaultAmount
           trading_time := t.trading_time.getD defaultTime
           retry_seconds := t.retry_seconds
           comment := t.comment.getD ""
           original_time := t.time }

/-- `schedule_trades`: appends a descriptor for every raw trade whose time
parses and counts a reported parse error for every one that does not. -/
def schedule_trades (now : DT) (defaultAmount defaultTime : String)
    (ts : List RawTrade) : List Sched × Nat :=
  ts.foldl
    (fun acc t =>
      match scheduleOne now defaultAmount defaultTime t with
      | some d => (acc.1 ++ [d], acc.2)
      | none => (acc.1, acc.2 + 1))
    ([], 0)

/-- The recurrence step of `_trade_scheduler_thread` (lines 1583-1616): after a
descriptor executes, reparse its stored `original_time` and append a descriptor
for tomorrow (`(now + timedelta(days=1)).replace(...)`) with every other field
copied.  `none` models the warning path where the recurrence is dropped.
(The `trade.get('original_time', ...)` fallback never fires for descriptors
created by `schedule_trades`, which always store `original_time`.) -/
def nextOccurrence (d : Sched) (now : DT) : Option Sched :=
  match parseTimeOfDay d.original_time with
  | none => none
  | some tod =>
    some { d with time := ⟨now.day + 1, tod⟩ }

/-! ## One-click trading helpers (lines 873-931)

`is_oneclick_trading_enabled` runs `find_elements` on the configured purchase
button selector; a `QueryRes` models the outcome of that query: either the
number of matching elements or a raised exception (missing config key, invalid
selector, dead driver, ...). -/

inductive QueryRes where
  | raises
  | found (n : Nat)
deriving DecidableEq, Repr

/-- One-click ordering is reported enabled exactly when the purchase button
query finds zero elements; any exception is swallowed and reported as `False`. -/
def is_oneclick_trading_enabled (q : QueryRes) : Bool :=
  match q with
  | .found n => n == 0
  | .raises => false

/-- `enable_oneclick_trading`: return `True` if already enabled; fail if the
toggle selector is unconfigured or the toggle click times out; otherwise click
the toggle and re-run the same absence test. -/
def enable_oneclick_trading (q1 : QueryRes) (toggleSel : Bool) (clickOk : Bool)
    (q2 : QueryRes) : Bool :=
  if is_oneclick_trading_enabled q1 then true
  else if ¬ toggleSel then false
  else if ¬ clickOk then false
  else is_oneclick_trading_enabled q2

/-! ## The execution state machine (`execute_trade`, lines 1022-1256)

Time is modelled in integer milliseconds elapsed since `trade_start_time`.
Each interaction with the browser consumes the next element of an oracle
stream:

* `entry k` — result of the `k`-th `get_entry_count()` call (`find_elements`
  with no wait and an exception fallback of 0, so any natural number; the call
  itself takes negligible time and is modelled as instantaneous);
* `amount k` — `(ok, duration)` of the `k`-th `set_amount` call (internally a
  5 s element wait plus fixed key-stroke sleeps; failure returns `False`);
* `wait k` — the `k`-th `WebDriverWait(...).until(element_to_be_clickable)`:
  `some d` means the element is clickable `d` ms after the wait starts (a
  `d` greater than the call's timeout raises `TimeoutException` after the
  full timeout, as does `none`);
* `timeSelDur` — duration of the single `select_trading_time` call, whose
  result is non-fatal and otherwise ignored;
* `oneclickDur` — duration of the one-click check/enable step (its result is
  ignored by `execute_trade`);
* `purchaseAvail` — result of the initial `is_purchase_button_available` check
  in non-one-click mode.
-/

structure Cfg where
  driverPresent : Bool
  buySel : Bool
  sellSel : Bool
  purchaseSel : Bool
  useOneclick : Bool
  waitMs : Nat
  defaultRetryMs : Nat
deriving DecidableEq, Repr

structure UIOracle where
  entry : Nat → Nat
  amount : Nat → Bool × Nat
  wait : Nat → Option Nat
  timeSelDur : Nat
  oneclickDur : Nat
  purchaseAvail : Bool

inductive Direction where
  | buy
  | sell
deriving DecidableEq, Repr

/-- The mutable state threaded through the `for i in range(count)` loop:
elapsed milliseconds since `trade_start_time`, the next index of each oracle
stream, the click log (which loop iteration issued each direction-button /
purchase-button click, in order), and whether an overall-timeout break was
reported. -/
structure LoopSt where
  elapsed : Nat
  ecIdx : Nat
  amIdx : Nat
  wtIdx : Nat
  dirClicks : List Nat
  purClicks : List Nat
  timedOut : Bool
deriving DecidableEq, Repr

/-- One `WebDriverWait(driver, timeout).until(element_to_be_clickable(...))`
followed by `.click()` on success: returns whether the element was clicked
and the updated state.  On timeout the wait consumes the full timeout. -/
def waitStep (o : UIOracle) (timeoutMs : Nat) (s : LoopSt) : Bool × LoopSt :=
  match o.wait s.wtIdx with
  | some d =>
    if d ≤ timeoutMs then
      (true, { s with wtIdx := s.wtIdx + 1, elapsed := s.elapsed + d })
    else
      (false, { s with wtIdx := s.wtIdx + 1, elapsed := s.elapsed + timeoutMs })
  | none => (false, { s with wtIdx := s.wtIdx + 1, elapsed := s.elapsed + timeoutMs })

/-- One `get_entry_count()` call. -/
def readStep (o : UIOracle) (s : LoopSt) : Nat × LoopSt :=
  (o.entry s.ecIdx, { s with ecIdx := s.ecIdx + 1 })

/-- One retry click attempt (lines 1193-1209): a 1 s wait for the appropriate
button (direction in one-click mode, purchase otherwise); on success click it
and sleep `wait_time * 0.5`, on `TimeoutException` just log. -/
def retryAttempt (o : UIOracle) (oneclick : Bool) (waitMs i : Nat) (s : LoopSt) :
    LoopSt :=
  match waitStep o 1000 s with
  | (false, s1) => s1
  | (true, s1) =>
    if oneclick then
      { s1 with dirClicks := s1.dirClicks ++ [i], elapsed := s1.elapsed + waitMs / 2 }
    else
      { s1 with purClicks := s1.purClicks ++ [i], elapsed := s1.elapsed + waitMs / 2 }

/-- The confirmation-retry loop (lines 1186-1217): while the overall deadline
has not elapsed, re-click the appropriate action, re-read the entry count,
and sleep 100 ms before the next attempt.  The loop is written with explicit
fuel; since every non-final cycle advances the clock by at least 100 ms and
the loop exits once `budget ≤ elapsed`, the zero-fuel case is unreachable for
any fuel of at least `budget + 1` cycles (`retryLoop_fuel_stable` below), so
the fuel is not an observable bound. -/
def retryLoop (o : UIOracle) (oneclick : Bool) (waitMs budget expected i : Nat) :
    Nat → LoopSt → LoopSt
  | 0, s => s
  | f + 1, s =>
    if budget ≤ s.elapsed then s
    else
      match readStep o (retryAttempt o oneclick waitMs i s) with
      | (cur, s2) =>
        if expected ≤ cur then s2
        else
          retryLoop o oneclick waitMs budget expected i f
            { s2 with elapsed := s2.elapsed + 100 }

/-- Result of one iteration of the `for i in range(count)` body:
`cont` falls through to the next iteration, `halt` is a `break`. -/
inductive IterStep where
  | cont (s : LoopSt)
  | halt (s : LoopSt)
deriving DecidableEq, Repr

def IterStep.st : IterStep → LoopSt
  | .cont s => s
  | .halt s => s

/-- The click phase of one iteration (lines 1140-1168): in one-click mode a
2 s wait on the direction button and a click plus a `wait_time * 0.5` sleep;
otherwise a 5 s wait and click on the direction button (first iteration only)
plus a `wait_time` sleep, then a 5 s wait and click on the purchase button
plus a `wait_time` sleep.  The Boolean is `true` when a `TimeoutException`
escaped to the iteration's handler. -/
def dirClickStd (o : UIOracle) (waitMs i : Nat) (s : LoopSt) : Bool × LoopSt :=
  if i = 0 then
    match waitStep o 5000 s with
    | (false, s1) => (true, s1)
    | (true, s1) =>
      (false, { s1 with dirClicks := s1.dirClicks ++ [i], elapsed := s1.elapsed + waitMs })
  else (false, s)

def clickPhase (o : UIOracle) (oneclick : Bool) (waitMs i : Nat) (s : LoopSt) :
    Bool × LoopSt :=
  if oneclick then
    match waitStep o 2000 s with
    | (false, s1) => (true, s1)
    | (true, s1) =>
      (false, { s1 with dirClicks := s1.dirClicks ++ [i], elapsed := s1.elapsed + waitMs / 2 })
  else
    match dirClickStd o waitMs i s with
    | (true, s1) => (true, s1)
    | (false, s1) =>
      match waitStep o 5000 s1 with
      | (false, s2) => (true, s2)
      | (true, s2) =>
        (false, { s2 with purClicks := s2.purClicks ++ [i], elapsed := s2.elapsed + waitMs })

/-- The confirmation phase of one iteration (lines 1170-1226): sleep 0.5 s,
read the entry count; if it has reached `base + i + 1` the iteration is done,
otherwise run the confirmation-retry loop; a deadline overrun after the retry
loop reads the entry count once more for its report and breaks. -/
def confirmPhase (o : UIOracle) (oneclick : Bool) (waitMs budget base i : Nat)
    (s3 : LoopSt) : IterStep :=
  let s5 : LoopSt := { s3 with elapsed := s3.elapsed + 500, ecIdx := s3.ecIdx + 1 }
  if base + i + 1 ≤ o.entry s3.ecIdx then .cont s5
  else
    let s6 := retryLoop o oneclick waitMs budget (base + i + 1) i (budget + 1) s5
    if budget ≤ s6.elapsed then
      .halt { s6 with ecIdx := s6.ecIdx + 1, timedOut := true }
    else .cont s6

/-- One iteration of the execution loop (lines 1131-1243): set the amount
(`continue` on failure), sleep `wait_time * 0.3`, run the click phase, then
the confirmation phase; a deadline overrun observed in the
`TimeoutException` handler is a `break`. -/
def iterBody (o : UIOracle) (oneclick : Bool) (waitMs budget base i : Nat)
    (s : LoopSt) : IterStep :=
  match o.amount s.amIdx with
  | (amOk, amDur) =>
    if amOk = false then
      .cont { s with amIdx := s.amIdx + 1, elapsed := s.elapsed + amDur }
    else
      match clickPhase o oneclick waitMs i
          { s with amIdx := s.amIdx + 1,
                   elapsed := s.elapsed + amDur + waitMs * 3 / 10 } with
      | (true, s3) =>
        if budget ≤ s3.elapsed then .halt { s3 with timedOut := true }
        else .cont s3
      | (false, s3) => confirmPhase o oneclick waitMs budget base i s3

/-- The `for i in range(count)` loop with its top-of-iteration deadline check
(lines 1121-1127): once `budget ≤ elapsed` at the start of an iteration, the
remaining iterations are skipped and the overrun is reported. -/
def iterLoop (o : UIOracle) (oneclick : Bool) (waitMs budget base : Nat) :
    Nat → Nat → LoopSt → LoopSt
  | 0, _, s => s
  | rem + 1, i, s =>
    if budget ≤ s.elapsed then { s with timedOut := true }
    else
      match iterBody o oneclick waitMs budget base i s with
      | .halt s1 => s1
      | .cont s1 => iterLoop o oneclick waitMs budget base rem (i + 1) s1

inductive SkipReason where
  | noDriver
  | noDirectionSel
  | noPurchaseSel
  | purchaseMissing
deriving DecidableEq, Repr

/-- The reported outcome of one completed `execute_trade` run: the returned
Boolean, the confirmed count `final - base` (an integer: the final read can
fall below the baseline), the baseline/target/final counts, the elapsed time,
whether an overall-timeout break was reported, and the click log. -/
structure Outcome where
  result : Bool
  confirmed : Int
  base : Nat
  final : Nat
  target : Nat
  requested : Nat
  elapsedMs : Nat
  timedOut : Bool
  dirClicks : List Nat
  purClicks : List Nat
deriving DecidableEq, Repr

inductive TradeResult where
  | skipped (r : SkipReason)
  | completed (o : Outcome)
deriving DecidableEq, Repr

def outcomeOf : TradeResult → Option Outcome
  | .skipped _ => none
  | .completed o => some o

/-- The loop state at `trade_start_time`: the baseline read has consumed the
first entry-count read, and the `select_trading_time` call plus (in one-click
mode) the one-click check/enable step have already consumed wall-clock time
inside the budget. -/
def initSt (o : UIOracle) (oneclick : Bool) : LoopSt :=
  { elapsed := o.timeSelDur + (if oneclick then o.oneclickDur else 0)
    ecIdx := 1, amIdx := 0, wtIdx := 0
    dirClicks := [], purClicks := [], timedOut := false }

/-- The non-skipped body of `execute_trade` (lines 1085-1252): read the
baseline entry count, start the overall clock, select the trading time
(result non-fatal), ensure one-click mode if configured, run the iteration
loop, read the final entry count, and report
`actual_count = final - base` with return value `actual_count > 0`. -/
def runTrade (cfg : Cfg) (o : UIOracle) (count budget : Nat) : Outcome :=
  let base := o.entry 0
  let s := iterLoop o cfg.useOneclick cfg.waitMs budget base count 0
    (initSt o cfg.useOneclick)
  let final := o.entry s.ecIdx
  let confirmed : Int := (final : Int) - (base : Int)
  { result := decide (0 < confirmed)
    confirmed := confirmed
    base := base
    final := final
    target := base + count
    requested := count
    elapsedMs := s.elapsed
    timedOut := s.timedOut
    dirClicks := s.dirClicks
    purClicks := s.purClicks }

/-- `execute_trade(direction, count, amount, trading_time, retry_seconds,
reset_entry_count)`.  The guard chain (lines 1034-1083) returns `False`
without touching the entry count: no driver, unconfigured direction selector,
unconfigured purchase selector in non-one-click mode, or purchase button
absent from the page in non-one-click mode.  `reset_entry_count` only changes
logging: both branches read the same baseline (lines 1085-1095). -/
def execute_trade (cfg : Cfg) (o : UIOracle) (dir : Direction) (count : Nat)
    (retryMs : Option Nat) (resetEntryCount : Bool) : TradeResult :=
  if ¬ cfg.driverPresent then .skipped .noDriver
  else
    let dirSel := match dir with | .buy => cfg.buySel | .sell => cfg.sellSel
    let budget := retryMs.getD cfg.defaultRetryMs
    if dirSel = false then .skipped .noDirectionSel
    else if ¬ cfg.useOneclick ∧ ¬ cfg.purchaseSel then .skipped .noPurchaseSel
    else if ¬ cfg.useOneclick ∧ ¬ o.purchaseAvail then .skipped .purchaseMissing
    else .completed (runTrade cfg o count budget)

/-! ## Configuration reload and the daily reset (lines 185-318)

`Config` abstracts the configuration dictionary to its Python truthiness and
the fields the scheduler core reads (the trades list and the two defaults used
by `schedule_trades`; `trades = none` models a dictionary lacking
`trading_settings`/`trades`, whose access raises `KeyError`).  A `ReadOutcome`
models one attempt to read and JSON-decode a configuration file. -/

structure Config where
  isEmpty : Bool
  defaultAmount : String
  defaultTime : String
  trades : Option (List RawTrade)
deriving DecidableEq, Repr

def emptyConfig : Config := ⟨true, "", "", none⟩

/-- `_deep_merge(default, user)` restricted to the modelled fields: user
values override default ones, and the merge of two dictionaries is empty only
if both are. -/
def mergeConfig (d u : Config) : Config :=
  ⟨d.isEmpty && u.isEmpty, u.defaultAmount, u.defaultTime,
    u.trades.orElse (fun _ => d.trades)⟩

inductive ReadOutcome where
  | missing
  | decodeError
  | ioError
  | ok (c : Config)
deriving DecidableEq, Repr

inductive LoadResult where
  | exits
  | raises
  | ok (c : Config)
deriving DecidableEq, Repr

/-- `_load_config` (lines 185-224).  `_load_default_config` swallows every
error and yields an empty dictionary.  A missing user file with no default
configuration, or a user file with malformed JSON, calls `sys.exit(1)`
(`LoadResult.exits` — a `SystemExit`, which `except Exception` does NOT
catch); any other read error propagates as an ordinary exception
(`LoadResult.raises`).  `deep_merge(default, {})` is `default`. -/
def load_config (defR userR : ReadOutcome) : LoadResult :=
  let d := match defR with | .ok c => c | _ => emptyConfig
  match userR with
  | .missing => if d.isEmpty then .exits else .ok d
  | .decodeError => .exits
  | .ioError => .raises
  | .ok u => if d.isEmpty then .ok u else .ok (mergeConfig d u)

/-- The process-wide scheduler state: `last_reset_date`, the current
configuration and the live schedule list. -/
structure TraderState where
  last_reset_date : Option Nat
  config : Config
  scheduled_trades : List Sched
deriving DecidableEq, Repr

/-- `reload_config` (lines 264-291): reload the configuration, clear the
schedule and rebuild it via `schedule_trades`.  Ordinary exceptions (from the
load or from `schedule_trades` hitting a missing trades key) are caught and
reported as `False`; a `SystemExit` from `_load_config` propagates and kills
the scheduler thread (`Except.error ()`).  Note that on the missing-trades
path the configuration has already been replaced and the schedule already
cleared when the exception fires. -/
def reload_config (st : TraderState) (now : DT) (defR userR : ReadOutcome) :
    Except Unit (TraderState × Bool) :=
  match load_config defR userR with
  | .exits => .error ()
  | .raises => .ok (st, false)
  | .ok c =>
    match c.trades with
    | none => .ok ({ st with config := c, scheduled_trades := [] }, false)
    | some ts =>
      let sched := (schedule_trades now c.defaultAmount c.defaultTime ts).1
      .ok ({ st with config := c, scheduled_trades := sched }, true)

/-- `_check_daily_reset` (lines 293-318): if no reset has happened today and
the hour is at least 7, attempt a reload; on success record today in
`last_reset_date`, on reported failure leave it unchanged (the warning path
that keeps the loop running). -/
def check_daily_reset (st : TraderState) (now : DT) (defR userR : ReadOutcome) :
    Except Unit (TraderState × Bool) :=
  if st.last_reset_date = some now.day then .ok (st, false)
  else if now.hour < 7 then .ok (st, false)
  else
    match reload_config st now defR userR with
    | .error _ => .error ()
    | .ok (st1, true) => .ok ({ st1 with last_reset_date := some now.day }, true)
    | .ok (st1, false) => .ok (st1, false)

/-- The state after one unconfirmed retry cycle (attempt, re-read, 100 ms
sleep). -/
def retryNext (o : UIOracle) (oc : Bool) (w i : Nat) (s : LoopSt) : LoopSt :=
  { retryAttempt o oc w i s with
    ecIdx := (retryAttempt o oc w i s).ecIdx + 1,
    elapsed := (retryAttempt o oc w i s).elapsed + 100 }

/-- The state after a retry cycle whose re-read confirmed. -/
def retryDone (o : UIOracle) (oc : Bool) (w i : Nat) (s : LoopSt) : LoopSt :=
  { retryAttempt o oc w i s with ecIdx := (retryAttempt o oc w i s).ecIdx + 1 }

/-! ## Extractors and concrete demonstration runs -/

def dirClicksOf : TradeResult → List Nat
  | .skipped _ => []
  | .completed o => o.dirClicks

def purClicksOf : TradeResult → List Nat
  | .skipped _ => []
  | .completed o => o.purClicks

/-- One-click configuration with the default 0.5 s `wait_time_between_actions`
and the default 10 s retry budget. -/
def cfgOneclick : Cfg := ⟨true, true, true, true, true, 500, 10000⟩

/-- Non-one-click configuration with the same defaults. -/
def cfgStandard : Cfg := ⟨true, true, true, true, false, 500, 10000⟩

/-- Trace for the specified example: baseline 4 entries on the screen, the
first two clicks confirm (5 then 6 entries), the third never registers and
the UI keeps reporting 6. -/
def oracleSpecExample : UIOracle :=
  { entry := fun k => if k = 0 then 4 else if k = 1 then 5 else 6
    amount := fun _ => (true, 0)
    wait := fun _ => some 0
    timeSelDur := 0
    oneclickDur := 0
    purchaseAvail := true }

/-- Trace in which the first click does not register on the first read and
one confirmation-retry click is needed. -/
def oracleOneRetry : UIOracle :=
  { entry := fun k => if k ≤ 1 then 0 else 1
    amount := fun _ => (true, 0)
    wait := fun _ => some 0
    timeSelDur := 0
    oneclickDur := 0
    purchaseAvail := true }

/-- Trace in which the direction element never becomes clickable and
`set_amount` takes its fixed 350 ms of key-stroke sleeps. -/
def oracleStuckElement : UIOracle :=
  { entry := fun _ => 0
    amount := fun _ => (true, 350)
    wait := fun _ => none
    timeSelDur := 0
    oneclickDur := 0
    purchaseAvail := true }

/-- Trace with baseline 4 in which every later read fails over to the
`get_entry_count` fallback value 0. -/
def oracleFallbackReads : UIOracle :=
  { entry := fun k => if k = 0 then 4 else 0
    amount := fun _ => (true, 0)
    wait := fun _ => some 0
    timeSelDur := 0
    oneclickDur := 0
    purchaseAvail := true }

/-- Trace in which the entry count never moves off its baseline 3. -/
def oracleNoFill : UIOracle :=
  { entry := fun _ => 3
    amount := fun _ => (true, 0)
    wait := fun _ => some 0
    timeSelDur := 0
    oneclickDur := 0
    purchaseAvail := true }

/-- Instant-response oracle: every amount entry succeeds at once, every
element is immediately clickable, and the `k`-th entry-count read returns
exactly `k`. -/
def oracleInstant : UIOracle :=
  { entry := fun k => k
    amount := fun _ => (true, 0)
    wait := fun _ => some 0
    timeSelDur := 0
    oneclickDur := 0
    purchaseAvail := true }

def now3 : DT := ⟨100, 0⟩

def trades3 : List RawTrade :=
  [ ⟨"10:00:00", "buy", none, none, none, none, none⟩,
    ⟨"25:99:00", "sell", some 2, none, none, none, none⟩,
    ⟨"11:00:00", "buy", none, none, none, none, none⟩ ]

/-- The outcome of the specified example run: baseline 4, requested 3,
budget 2 s, the UI stuck at 6 when the deadline elapses. -/
def outSpecExample : Outcome :=
  { result := true, confirmed := 2, base := 4, final := 6, target := 7,
    requested := 3, elapsedMs := 2700, timedOut := true,
    dirClicks := [0, 1, 2], purClicks := [] }

/-- A descriptor as stored by `schedule_trades` for the trade at 10:00:00. -/
def schedDemo : Sched :=
  { time := ⟨100, 36000000000⟩, direction := "buy", count := 1,
    amount := "1000", trading_time := "1m", retry_seconds := none,
    comment := "", original_time := "10:00:00" }

/-- A non-empty reloaded configuration carrying a trades list. -/
def cDemo : Config := ⟨false, "1000", "1m", some trades3⟩

def st0 : TraderState := ⟨none, emptyConfig, []⟩

def now7 : DT := ⟨0, 7 * 3600000000⟩

/-- The completed outcome of the stuck-element run. -/
def outStuck : Outcome :=
  { result := false, confirmed := 0, base := 0, final := 0, target := 1,
    requested := 1, elapsedMs := 5500, timedOut := true, dirClicks := [],
    purClicks := [] }

/-- The completed outcome of a one-entry instant-response run. -/
def outInstant : Outcome :=
  { result := true, confirmed := 2, base := 0, final := 2, target := 1,
    requested := 1, elapsedMs := 900, timedOut := false, dirClicks := [0],
    purClicks := [] }

/-- The next occurrence of `schedDemo` computed at `now3`. -/
def schedDemoNext : Sched :=
  { time := ⟨101, 36000000000⟩, direction := "buy", count := 1,
    amount := "1000", trading_time := "1m", retry_seconds := none,
    comment := "", original_time := "10:00:00" }

theorem DT.lt_of_not_le {a b : DT} (h : ¬ (a ≤ b)) : b < a := by
  have h2 : ¬ (a.day < b.day ∨ (a.day = b.day ∧ a.us ≤ b.us)) := h
  show b.day < a.day ∨ (b.day = a.day ∧ b.us < a.us)
  omega

theorem DT.lt_addDay_of_le {a b : DT} (h : a ≤ b) : a < b.addDay := by
  have h2 : a.day < b.day ∨ (a.day = b.day ∧ a.us ≤ b.us) := h
  show a.day < b.day + 1 ∨ (a.day = b.day + 1 ∧ a.us < b.us)
  omega

/-! ## Helper lemmas about the execution state machine -/

theorem waitStep_elapsed_ge (o : UIOracle) (T : Nat) (s : LoopSt) :
    s.elapsed ≤ ((waitStep o T s).2).elapsed := by
  unfold waitStep
  rcases o.wait s.wtIdx with _ | d <;> simp <;> split <;> simp

theorem waitStep_elapsed_le (o : UIOracle) (T : Nat) (s : LoopSt) :
    ((waitStep o T s).2).elapsed ≤ s.elapsed + T := by
  unfold waitStep
  rcases o.wait s.wtIdx with _ | d <;> simp
  split <;> simp <;> omega

theorem retryAttempt_elapsed_ge (o : UIOracle) (oc : Bool) (w i : Nat)
    (s : LoopSt) : s.elapsed ≤ (retryAttempt o oc w i s).elapsed := by
  have h := waitStep_elapsed_ge o 1000 s
  unfold retryAttempt
  rcases hw : waitStep o 1000 s with ⟨hit, s1⟩
  rw [hw] at h
  have h2 : s.elapsed ≤ s1.elapsed := h
  cases hit
  · exact h2
  · cases oc <;> simp <;> omega

theorem retryAttempt_elapsed_le (o : UIOracle) (oc : Bool) (w i : Nat)
    (s : LoopSt) : (retryAttempt o oc w i s).elapsed ≤ s.elapsed + 1000 + w / 2 := by
  have h := waitStep_elapsed_le o 1000 s
  unfold retryAttempt
  rcases hw : waitStep o 1000 s with ⟨hit, s1⟩
  rw [hw] at h
  have h2 : s1.elapsed ≤ s.elapsed + 1000 := h
  cases hit
  · show s1.elapsed ≤ s.elapsed + 1000 + w / 2
    omega
  · cases oc <;> simp <;> omega

theorem retryLoop_succ (o : UIOracle) (oc : Bool) (w budget e i f : Nat)
    (s : LoopSt) :
    retryLoop o oc w budget e i (f + 1) s =
      if budget ≤ s.elapsed then s
      else if e ≤ o.entry (retryAttempt o oc w i s).ecIdx then retryDone o oc w i s
      else retryLoop o oc w budget e i f (retryNext o oc w i s) := rfl

theorem retryNext_elapsed (o : UIOracle) (oc : Bool) (w i : Nat) (s : LoopSt) :
    (retryNext o oc w i s).elapsed = (retryAttempt o oc w i s).elapsed + 100 := rfl

theorem retryDone_elapsed (o : UIOracle) (oc : Bool) (w i : Nat) (s : LoopSt) :
    (retryDone o oc w i s).elapsed = (retryAttempt o oc w i s).elapsed := rfl

theorem retryLoop_of_deadline (o : UIOracle) (oc : Bool) (w budget e i : Nat)
    (f : Nat) (s : LoopSt) (h : budget ≤ s.elapsed) :
    retryLoop o oc w budget e i f s = s := by
  cases f with
  | zero => rfl
  | succ f => rw [retryLoop_succ, if_pos h]

/-- Fuel stability of the confirmation-retry loop: as soon as the fuel covers
the remaining budget at 100 ms per cycle, adding more fuel does not change the
result — so the fueled definition computes the limit of the unbounded
`while True` loop. -/
theorem retryLoop_fuel_stable (o : UIOracle) (oc : Bool) (w budget e i : Nat) :
    ∀ f s, budget ≤ s.elapsed + 100 * f →
      retryLoop o oc w budget e i (f + 1) s = retryLoop o oc w budget e i f s := by
  intro f
  induction f with
  | zero =>
    intro s h
    simp only [Nat.mul_zero, Nat.add_zero] at h
    rw [retryLoop_succ, if_pos h]
    rfl
  | succ f ih =>
    intro s h
    by_cases hb : budget ≤ s.elapsed
    · conv_lhs => rw [retryLoop_succ]
      conv_rhs => rw [retryLoop_succ]
      rw [if_pos hb, if_pos hb]
    · conv_lhs => rw [retryLoop_succ]
      conv_rhs => rw [retryLoop_succ]
      rw [if_neg hb, if_neg hb]
      split
      · rfl
      · apply ih
        have h1 := retryAttempt_elapsed_ge o oc w i s
        rw [retryNext_elapsed]
        omega

theorem retryLoop_fuel_ge (o : UIOracle) (oc : Bool) (w budget e i : Nat)
    (f g : Nat) (s : LoopSt) (h : budget ≤ s.elapsed + 100 * f) (hfg : f ≤ g) :
    retryLoop o oc w budget e i g s = retryLoop o oc w budget e i f s := by
  induction g with
  | zero =>
    have : f = 0 := Nat.le_zero.mp hfg
    simp [this]
  | succ g ih =>
    rcases Nat.lt_or_ge f (g + 1) with hlt | hge
    · have hfg2 : f ≤ g := Nat.lt_succ_iff.mp hlt
      rw [retryLoop_fuel_stable o oc w budget e i g s, ih hfg2]
      omega
    · have : f = g + 1 := Nat.le_antisymm hfg hge
      simp [this]

theorem retryLoop_elapsed_le (o : UIOracle) (oc : Bool) (w budget e i : Nat) :
    ∀ f s, (retryLoop o oc w budget e i f s).elapsed ≤
      max s.elapsed (budget + (1100 + w / 2)) := by
  intro f
  induction f with
  | zero => intro s; exact le_max_left _ _
  | succ f ih =>
    intro s
    have h1 := retryAttempt_elapsed_le o oc w i s
    by_cases hb : budget ≤ s.elapsed
    · rw [retryLoop_succ, if_pos hb]
      exact le_max_left _ _
    · rw [retryLoop_succ, if_neg hb]
      split
      · rw [retryDone_elapsed]
        omega
      · have h2 := ih (retryNext o oc w i s)
        rw [retryNext_elapsed] at h2
        omega

theorem retryLoop_elapsed_ge (o : UIOracle) (oc : Bool) (w budget e i : Nat) :
    ∀ f s, s.elapsed ≤ (retryLoop o oc w budget e i f s).elapsed := by
  intro f
  induction f with
  | zero => intro s; exact Nat.le_refl _
  | succ f ih =>
    intro s
    have h1 := retryAttempt_elapsed_ge o oc w i s
    by_cases hb : budget ≤ s.elapsed
    · rw [retryLoop_succ, if_pos hb]
    · rw [retryLoop_succ, if_neg hb]
      split
      · rw [retryDone_elapsed]
        omega
      · have h2 := ih (retryNext o oc w i s)
        rw [retryNext_elapsed] at h2
        omega

theorem dirClickStd_elapsed_le (o : UIOracle) (w i : Nat) (s : LoopSt) :
    ((dirClickStd o w i s).2).elapsed ≤ s.elapsed + 5000 + w := by
  have h := waitStep_elapsed_le o 5000 s
  unfold dirClickStd
  by_cases hi : i = 0
  · simp only [hi, if_true]
    rcases hw : waitStep o 5000 s with ⟨hit, s1⟩
    rw [hw] at h
    have h2 : s1.elapsed ≤ s.elapsed + 5000 := h
    cases hit <;> simp <;> omega
  · rw [if_neg hi]
    show s.elapsed ≤ s.elapsed + 5000 + w
    omega

theorem clickPhase_elapsed_le (o : UIOracle) (oc : Bool) (w i : Nat) (s : LoopSt) :
    ((clickPhase o oc w i s).2).elapsed ≤ s.elapsed + 10000 + 2 * w := by
  unfold clickPhase
  cases oc
  · have h := dirClickStd_elapsed_le o w i s
    rcases hd : dirClickStd o w i s with ⟨raised, s1⟩
    rw [hd] at h
    have h1 : s1.elapsed ≤ s.elapsed + 5000 + w := h
    cases raised
    · simp only [Bool.false_eq_true, if_false]
      have h2 := waitStep_elapsed_le o 5000 s1
      rcases hw : waitStep o 5000 s1 with ⟨hit, s2⟩
      rw [hw] at h2
      have h3 : s2.elapsed ≤ s1.elapsed + 5000 := h2
      cases hit <;> simp <;> omega
    · simp
      omega
  · have h := waitStep_elapsed_le o 2000 s
    rcases hw : waitStep o 2000 s with ⟨hit, s1⟩
    rw [hw] at h
    have h1 : s1.elapsed ≤ s.elapsed + 2000 := h
    cases hit <;> simp <;> omega

theorem confirmPhase_elapsed_le (o : UIOracle) (oc : Bool) (w budget base i : Nat)
    (s3 : LoopSt) : ((confirmPhase o oc w budget base i s3).st).elapsed ≤
      max (s3.elapsed + 500) (budget + (1100 + w / 2)) := by
  simp only [confirmPhase]
  split
  · simp only [IterStep.st]
    show s3.elapsed + 500 ≤ _
    omega
  · have hretry := retryLoop_elapsed_le o oc w budget (base + i + 1) i (budget + 1)
      { s3 with elapsed := s3.elapsed + 500, ecIdx := s3.ecIdx + 1 }
    have hre : ({ s3 with elapsed := s3.elapsed + 500, ecIdx := s3.ecIdx + 1 } :
        LoopSt).elapsed = s3.elapsed + 500 := rfl
    rw [hre] at hretry
    split <;> simp only [IterStep.st] <;> simp <;> omega

/-- The per-iteration overrun bound: one iteration of the loop body, started
strictly before the deadline, ends no more than `A` (the bound on one
`set_amount` duration) plus the fixed waits and sleeps past the budget. -/
theorem iterBody_elapsed_le (o : UIOracle) (oc : Bool) (w budget base i A : Nat)
    (s : LoopSt) (hA : ∀ k, (o.amount k).2 ≤ A) (hs : s.elapsed < budget) :
    ((iterBody o oc w budget base i s).st).elapsed ≤
      budget + (A + w * 3 / 10 + 2 * w + 10500) := by
  have ham := hA s.amIdx
  unfold iterBody
  rcases ha : o.amount s.amIdx with ⟨amOk, amDur⟩
  rw [ha] at ham
  have ham2 : amDur ≤ A := ham
  cases amOk
  · simp [IterStep.st]
    omega
  · simp only [Bool.true_eq_false, if_false]
    have hclick := clickPhase_elapsed_le o oc w i
      { s with amIdx := s.amIdx + 1, elapsed := s.elapsed + amDur + w * 3 / 10 }
    rcases hc : clickPhase o oc w i
        { s with amIdx := s.amIdx + 1, elapsed := s.elapsed + amDur + w * 3 / 10 }
      with ⟨raised, s3⟩
    rw [hc] at hclick
    have hclick2 : s3.elapsed ≤ s.elapsed + amDur + w * 3 / 10 + 10000 + 2 * w := hclick
    cases raised
    · have hcp := confirmPhase_elapsed_le o oc w budget base i s3
      show ((confirmPhase o oc w budget base i s3).st).elapsed ≤
        budget + (A + w * 3 / 10 + 2 * w + 10500)
      omega
    · show (IterStep.st (if budget ≤ s3.elapsed then
          IterStep.halt { s3 with timedOut := true } else IterStep.cont s3)).elapsed ≤
        budget + (A + w * 3 / 10 + 2 * w + 10500)
      split <;> simp [IterStep.st] <;> omega

theorem iterLoop_succ (o : UIOracle) (oc : Bool) (w budget base rem i : Nat)
    (s : LoopSt) :
    iterLoop o oc w budget base (rem + 1) i s =
      if budget ≤ s.elapsed then { s with timedOut := true }
      else
        match iterBody o oc w budget base i s with
        | .halt s1 => s1
        | .cont s1 => iterLoop o oc w budget base rem (i + 1) s1 := rfl

theorem iterLoop_cont_step (o : UIOracle) (oc : Bool) (w budget base rem i : Nat)
    (s s1 : LoopSt) (hlt : ¬ budget ≤ s.elapsed)
    (hbody : iterBody o oc w budget base i s = .cont s1) :
    iterLoop o oc w budget base (rem + 1) i s =
      iterLoop o oc w budget base rem (i + 1) s1 := by
  rw [iterLoop_succ, if_neg hlt, hbody]

/-! ### Clean runs: every click is confirmed by the first following read

When every `set_amount` succeeds instantly, every waited-for element is
clickable at once, `wait_time_between_actions` is 0 and the `k`-th entry-count
read returns `base + k`, each iteration costs exactly the fixed 500 ms
post-click sleep and confirms immediately, so the confirmation-retry loop
never runs. -/

theorem iterBody_clean_oneclick (o : UIOracle) (budget base i : Nat) (s : LoopSt)
    (ham : ∀ k, o.amount k = (true, 0)) (hwt : ∀ k, o.wait k = some 0)
    (hent : o.entry (i + 1) = base + (i + 1))
    (hec : s.ecIdx = i + 1) (hai : s.amIdx = i) (hwi : s.wtIdx = i)
    (hel : s.elapsed = 500 * i) (hto : s.timedOut = false) :
    iterBody o true 0 budget base i s =
      .cont { elapsed := 500 * (i + 1), ecIdx := i + 2, amIdx := i + 1,
              wtIdx := i + 1, dirClicks := s.dirClicks ++ [i],
              purClicks := s.purClicks, timedOut := false } := by
  have h1 : base + i + 1 ≤ base + (i + 1) := by omega
  simp [iterBody, clickPhase, confirmPhase, waitStep, ham, hwt, hent, hec, hai,
    hwi, hel, hto, h1]
  omega

theorem iterLoop_clean_oneclick (o : UIOracle) (budget base : Nat)
    (ham : ∀ k, o.amount k = (true, 0)) (hwt : ∀ k, o.wait k = some 0) :
    ∀ rem i s, (∀ k, k ≤ i + rem → o.entry k = base + k) →
      s.ecIdx = i + 1 → s.amIdx = i → s.wtIdx = i → s.elapsed = 500 * i →
      s.timedOut = false → 500 * (i + rem) ≤ budget →
      iterLoop o true 0 budget base rem i s =
        { elapsed := 500 * (i + rem), ecIdx := i + rem + 1, amIdx := i + rem,
          wtIdx := i + rem, dirClicks := s.dirClicks ++ List.range' i rem,
          purClicks := s.purClicks, timedOut := false } := by
  intro rem
  induction rem with
  | zero =>
    intro i s hent hec hai hwi hel hto hb
    rcases s with ⟨e, ec, am, wt, dc, pc, tmo⟩
    simp only [iterLoop]
    simp_all
  | succ rem ih =>
    intro i s hent hec hai hwi hel hto hb
    have hlt : ¬ (budget ≤ s.elapsed) := by omega
    rw [iterLoop_cont_step o true 0 budget base rem i s _ hlt
      (iterBody_clean_oneclick o budget base i s ham hwt
        (hent (i + 1) (by omega)) hec hai hwi hel hto)]
    rw [ih (i + 1)
      { elapsed := 500 * (i + 1), ecIdx := i + 2, amIdx := i + 1,
        wtIdx := i + 1, dirClicks := s.dirClicks ++ [i],
        purClicks := s.purClicks, timedOut := false }
      (by intro k hk; exact hent k (by omega)) rfl rfl rfl rfl rfl (by omega)]
    have hr : List.range' i (rem + 1) = i :: List.range' (i + 1) rem :=
      List.range'_succ i rem 1
    simp [hr]
    omega

theorem iterBody_clean_std_pos (o : UIOracle) (budget base i : Nat) (s : LoopSt)
    (ham : ∀ k, o.amount k = (true, 0)) (hwt : ∀ k, o.wait k = some 0)
    (hent : o.entry (i + 1) = base + (i + 1)) (hi : 1 ≤ i)
    (hec : s.ecIdx = i + 1) (hai : s.amIdx = i) (hwi : s.wtIdx = i + 1)
    (hel : s.elapsed = 500 * i) (hto : s.timedOut = false) :
    iterBody o false 0 budget base i s =
      .cont { elapsed := 500 * (i + 1), ecIdx := i + 2, amIdx := i + 1,
              wtIdx := i + 2, dirClicks := s.dirClicks,
              purClicks := s.purClicks ++ [i], timedOut := false } := by
  have h1 : base + i + 1 ≤ base + (i + 1) := by omega
  have h2 : ¬ (i = 0) := by omega
  simp [iterBody, clickPhase, dirClickStd, confirmPhase, waitStep, ham, hwt,
    hent, hec, hai, hwi, hel, hto, h1, h2]
  omega

theorem iterLoop_clean_std (o : UIOracle) (budget base : Nat)
    (ham : ∀ k, o.amount k = (true, 0)) (hwt : ∀ k, o.wait k = some 0) :
    ∀ rem i s, (∀ k, k ≤ i + rem → o.entry k = base + k) → 1 ≤ i →
      s.ecIdx = i + 1 → s.amIdx = i → s.wtIdx = i + 1 → s.elapsed = 500 * i →
      s.timedOut = false → 500 * (i + rem) ≤ budget →
      iterLoop o false 0 budget base rem i s =
        { elapsed := 500 * (i + rem), ecIdx := i + rem + 1, amIdx := i + rem,
          wtIdx := i + rem + 1, dirClicks := s.dirClicks,
          purClicks := s.purClicks ++ List.range' i rem, timedOut := false } := by
  intro rem
  induction rem with
  | zero =>
    intro i s hent hi hec hai hwi hel hto hb
    rcases s with ⟨e, ec, am, wt, dc, pc, tmo⟩
    simp only [iterLoop]
    simp_all
  | succ rem ih =>
    intro i s hent hi hec hai hwi hel hto hb
    have hlt : ¬ (budget ≤ s.elapsed) := by omega
    rw [iterLoop_cont_step o false 0 budget base rem i s _ hlt
      (iterBody_clean_std_pos o budget base i s ham hwt
        (hent (i + 1) (by omega)) hi hec hai hwi hel hto)]
    rw [ih (i + 1)
      { elapsed := 500 * (i + 1), ecIdx := i + 2, amIdx := i + 1,
        wtIdx := i + 2, dirClicks := s.dirClicks,
        purClicks := s.purClicks ++ [i], timedOut := false }
      (by intro k hk; exact hent k (by omega)) (by omega) rfl rfl rfl rfl rfl
      (by omega)]
    have hr : List.range' i (rem + 1) = i :: List.range' (i + 1) rem :=
      List.range'_succ i rem 1
    simp [hr]
    omega

theorem iterLoop_of_deadline (o : UIOracle) (oc : Bool) (w budget base : Nat)
    (rem i : Nat) (s : LoopSt) (h : budget ≤ s.elapsed) :
    iterLoop o oc w budget base (rem + 1) i s = { s with timedOut := true } := by
  simp [iterLoop, h]

theorem iterLoop_elapsed_le (o : UIOracle) (oc : Bool) (w budget base A : Nat)
    (hA : ∀ k, (o.amount k).2 ≤ A) :
    ∀ rem i s, (iterLoop o oc w budget base rem i s).elapsed ≤
      max s.elapsed (budget + (A + w * 3 / 10 + 2 * w + 10500)) := by
  intro rem
  induction rem with
  | zero => intro i s; simp [iterLoop]
  | succ rem ih =>
    intro i s
    by_cases hb : budget ≤ s.elapsed
    · simp [iterLoop, hb]
    · simp only [iterLoop, if_neg hb]
      have hbody := iterBody_elapsed_le o oc w budget base i A s hA
        (Nat.lt_of_not_le hb)
      rcases hcase : iterBody o oc w budget base i s with s1 | s1
      · have h2 := ih (i + 1) s1
        simp only [hcase, IterStep.st] at *
        omega
      · simp only [hcase, IterStep.st] at *
        omega

/-! ## Characterization of `schedule_trades` -/

theorem schedule_trades_go (now : DT) (dA dT : String) :
    ∀ (ts : List RawTrade) (acc : List Sched) (n : Nat),
      List.foldl
        (fun acc t =>
          match scheduleOne now dA dT t with
          | some d => (acc.1 ++ [d], acc.2)
          | none => (acc.1, acc.2 + 1))
        (acc, n) ts =
      (acc ++ ts.filterMap (scheduleOne now dA dT),
       n + ts.countP (fun t => (parseTimeOfDay t.time).isNone)) := by
  intro ts
  induction ts with
  | nil => intro acc n; simp
  | cons t ts ih =>
    intro acc n
    cases hp : parseTimeOfDay t.time with
    | none =>
      have hone : scheduleOne now dA dT t = none := by simp [scheduleOne, hp]
      simp [List.foldl_cons, hone, ih, List.countP_cons, hp, Nat.add_assoc,
        Nat.add_comm 1]
    | some tod =>
      have hone : scheduleOne now dA dT t =
          some { time := if (⟨now.day, tod⟩ : DT) ≤ now then ⟨now.day + 1, tod⟩
                         else ⟨now.day, tod⟩
                 direction := t.direction
                 count := t.count.getD 1
                 amount := t.amount.getD dA
                 trading_time := t.trading_time.getD dT
                 retry_seconds := t.retry_seconds
                 comment := t.comment.getD ""
                 original_time := t.time } := by
        simp [scheduleOne, hp]
      simp [List.foldl_cons, hone, ih, List.countP_cons, hp]

/-- `schedule_trades` processes each raw trade independently: the resulting
schedule is the list of descriptors of the trades whose time parses, in
order, and the error count is the number of trades whose time does not. -/
theorem schedule_trades_spec (now : DT) (dA dT : String) (ts : List RawTrade) :
    schedule_trades now dA dT ts =
      (ts.filterMap (scheduleOne now dA dT),
       ts.countP (fun t => (parseTimeOfDay t.time).isNone)) := by
  unfold schedule_trades
  rw [schedule_trades_go]
  simp

theorem filterMap_length_add_countP {α β : Type} (f : α → Option β) :
    ∀ ts : List α,
      (ts.filterMap f).length + ts.countP (fun a => (f a).isNone) = ts.length := by
  intro ts
  induction ts with
  | nil => simp
  | cons t ts ih =>
    cases h : f t <;> simp [List.filterMap_cons, List.countP_cons, h] <;> omega

/-- Every non-skipped `execute_trade` run reports the outcome computed by
`runTrade` from the baseline read and the iteration loop. -/
theorem execute_trade_completed (cfg : Cfg) (o : UIOracle) (dir : Direction)
    (count : Nat) (rMs : Option Nat) (rst : Bool) (out : Outcome)
    (h : execute_trade cfg o dir count rMs rst = .completed out) :
    out = runTrade cfg o count (rMs.getD cfg.defaultRetryMs) := by
  simp only [execute_trade] at h
  split at h
  · exact TradeResult.noConfusion h
  · split at h
    · exact TradeResult.noConfusion h
    · split at h
      · exact TradeResult.noConfusion h
      · split at h
        · exact TradeResult.noConfusion h
        · injection h with h
          exact h.symm

/-! ### One-click mode never touches the purchase button -/

theorem waitStep_purClicks (o : UIOracle) (T : Nat) (s : LoopSt) :
    ((waitStep o T s).2).purClicks = s.purClicks := by
  unfold waitStep
  rcases o.wait s.wtIdx with _ | d <;> simp
  split <;> simp

theorem retryAttempt_purClicks_oneclick (o : UIOracle) (w i : Nat) (s : LoopSt) :
    (retryAttempt o true w i s).purClicks = s.purClicks := by
  have h := waitStep_purClicks o 1000 s
  unfold retryAttempt
  rcases hw : waitStep o 1000 s with ⟨hit, s1⟩
  rw [hw] at h
  have h2 : s1.purClicks = s.purClicks := h
  cases hit <;> simp [h2]

theorem retryLoop_purClicks_oneclick (o : UIOracle) (w budget e i : Nat) :
    ∀ f s, (retryLoop o true w budget e i f s).purClicks = s.purClicks := by
  intro f
  induction f with
  | zero => intro s; rfl
  | succ f ih =>
    intro s
    have h1 := retryAttempt_purClicks_oneclick o w i s
    by_cases hb : budget ≤ s.elapsed
    · rw [retryLoop_succ, if_pos hb]
    · rw [retryLoop_succ, if_neg hb]
      split
      · exact h1
      · rw [ih]
        exact h1

theorem clickPhase_purClicks_oneclick (o : UIOracle) (w i : Nat) (s : LoopSt) :
    ((clickPhase o true w i s).2).purClicks = s.purClicks := by
  have h := waitStep_purClicks o 2000 s
  unfold clickPhase
  rcases hw : waitStep o 2000 s with ⟨hit, s1⟩
  rw [hw] at h
  have h2 : s1.purClicks = s.purClicks := h
  cases hit <;> simp [h2]

theorem confirmPhase_purClicks_oneclick (o : UIOracle) (w budget base i : Nat)
    (s3 : LoopSt) :
    ((confirmPhase o true w budget base i s3).st).purClicks = s3.purClicks := by
  have hret := retryLoop_purClicks_oneclick o w budget (base + i + 1) i
    (budget + 1) { s3 with elapsed := s3.elapsed + 500, ecIdx := s3.ecIdx + 1 }
  have hre : ({ s3 with elapsed := s3.elapsed + 500, ecIdx := s3.ecIdx + 1 } :
      LoopSt).purClicks = s3.purClicks := rfl
  rw [hre] at hret
  simp only [confirmPhase]
  split
  · rfl
  · split <;> simp only [IterStep.st] <;> exact hret

theorem iterBody_purClicks_oneclick (o : UIOracle) (w budget base i : Nat)
    (s : LoopSt) :
    ((iterBody o true w budget base i s).st).purClicks = s.purClicks := by
  unfold iterBody
  rcases ha : o.amount s.amIdx with ⟨amOk, amDur⟩
  cases amOk
  · rfl
  · simp only [Bool.true_eq_false, if_false]
    have hclick := clickPhase_purClicks_oneclick o w i
      { s with amIdx := s.amIdx + 1, elapsed := s.elapsed + amDur + w * 3 / 10 }
    rcases hc : clickPhase o true w i
        { s with amIdx := s.amIdx + 1, elapsed := s.elapsed + amDur + w * 3 / 10 }
      with ⟨raised, s3⟩
    rw [hc] at hclick
    have hclick2 : s3.purClicks = s.purClicks := hclick
    cases raised
    · have hcp := confirmPhase_purClicks_oneclick o w budget base i s3
      show ((confirmPhase o true w budget base i s3).st).purClicks = s.purClicks
      rw [hcp, hclick2]
    · show (IterStep.st (if budget ≤ s3.elapsed then
          IterStep.halt { s3 with timedOut := true } else IterStep.cont s3)).purClicks
        = s.purClicks
      split <;> simp [IterStep.st, hclick2]

theorem iterLoop_purClicks_oneclick (o : UIOracle) (w budget base : Nat) :
    ∀ rem i s, (iterLoop o true w budget base rem i s).purClicks = s.purClicks := by
  intro rem
  induction rem with
  | zero => intro i s; rfl
  | succ rem ih =>
    intro i s
    by_cases hb : budget ≤ s.elapsed
    · rw [iterLoop_succ, if_pos hb]
    · rw [iterLoop_succ, if_neg hb]
      have hbody := iterBody_purClicks_oneclick o w budget base i s
      rcases hcase : iterBody o true w budget base i s with s1 | s1
      · rw [hcase] at hbody
        simp only [IterStep.st] at hbody
        rw [ih, hbody]
      · rw [hcase] at hbody
        simp only [IterStep.st] at hbody
        exact hbody

theorem iterBody_clean_std_zero (o : UIOracle) (budget base : Nat) (s : LoopSt)
    (ham : ∀ k, o.amount k = (true, 0)) (hwt : ∀ k, o.wait k = some 0)
    (hent : o.entry 1 = base + 1) (hec : s.ecIdx = 1) (hai : s.amIdx = 0)
    (hwi : s.wtIdx = 0) (hel : s.elapsed = 0) (hto : s.timedOut = false) :
    iterBody o false 0 budget base 0 s =
      .cont { elapsed := 500, ecIdx := 2, amIdx := 1, wtIdx := 2,
              dirClicks := s.dirClicks ++ [0], purClicks := s.purClicks ++ [0],
              timedOut := false } := by
  have h1 : base + 0 + 1 ≤ base + 1 := by omega
  simp [iterBody, clickPhase, dirClickStd, confirmPhase, waitStep, ham, hwt,
    hent, hec, hai, hwi, hel, hto, h1]

/-! ## Claim theorems -/

/-- C1: for every completed execution of one trade descriptor, the target
entry count equals the baseline `B` read from the UI at the start plus the
descriptor's count, and the reported outcome is
`confirmedCount = finalCount - B`; in particular, with `B = 4` and
`count = 3` the target is 7, and when the UI reports 6 at the deadline the
outcome is `confirmedCount = 2` with `timedOut = true`. -/
theorem c1_confirmed_count_arithmetic :
    (∀ (cfg : Cfg) (o : UIOracle) (dir : Direction) (count : Nat)
        (rMs : Option Nat) (rst : Bool) (out : Outcome),
        execute_trade cfg o dir count rMs rst = .completed out →
        out.base = o.entry 0 ∧ out.target = out.base + count ∧
        out.confirmed = (out.final : Int) - (out.base : Int)) ∧
    outcomeOf (execute_trade cfgOneclick oracleSpecExample .buy 3 (some 2000) true) =
      some outSpecExample ∧
    outSpecExample.base = 4 ∧ outSpecExample.target = 7 ∧
    outSpecExample.confirmed = 2 ∧ outSpecExample.timedOut = true := by
  refine ⟨?_, rfl, rfl, rfl, rfl, rfl⟩
  intro cfg o dir count rMs rst out h
  rw [execute_trade_completed cfg o dir count rMs rst out h]
  exact ⟨rfl, rfl, rfl⟩

theorem c1_witness :
    outSpecExample.base = oracleSpecExample.entry 0 ∧
    outSpecExample.target = outSpecExample.base + 3 ∧
    outSpecExample.confirmed = (outSpecExample.final : Int) - (outSpecExample.base : Int) :=
  c1_confirmed_count_arithmetic.1 cfgOneclick oracleSpecExample .buy 3 (some 2000)
    true outSpecExample rfl

/-- C2: for every raw trade whose time-of-day string parses, the trigger is
today's instant at that time of day, advanced by exactly one day when that
instant is not strictly after `now`; consequently every stored trigger time
is strictly in the future relative to the scheduling instant. -/
theorem c2_trigger_strictly_future :
    (∀ (now : DT) (dA dT : String) (t : RawTrade) (d : Sched),
        scheduleOne now dA dT t = some d →
        now < d.time ∧
        ∀ tod, parseTimeOfDay t.time = some tod →
          d.time = if (⟨now.day, tod⟩ : DT) ≤ now then (⟨now.day + 1, tod⟩ : DT)
                   else ⟨now.day, tod⟩) ∧
    (∀ (now : DT) (dA dT : String) (ts : List RawTrade) (d : Sched),
        d ∈ (schedule_trades now dA dT ts).1 → now < d.time) := by
  have main : ∀ (now : DT) (dA dT : String) (t : RawTrade) (d : Sched),
      scheduleOne now dA dT t = some d →
      now < d.time ∧
      ∀ tod, parseTimeOfDay t.time = some tod →
        d.time = if (⟨now.day, tod⟩ : DT) ≤ now then (⟨now.day + 1, tod⟩ : DT)
                 else ⟨now.day, tod⟩ := by
    intro now dA dT t d h
    cases hp : parseTimeOfDay t.time with
    | none => simp [scheduleOne, hp] at h
    | some tod =>
      simp only [scheduleOne, hp, Option.some.injEq] at h
      subst h
      constructor
      · show now < (if (⟨now.day, tod⟩ : DT) ≤ now then (⟨now.day + 1, tod⟩ : DT)
          else ⟨now.day, tod⟩)
        by_cases hle : (⟨now.day, tod⟩ : DT) ≤ now
        · rw [if_pos hle]
          exact Or.inl (Nat.lt_succ_self now.day)
        · rw [if_neg hle]
          exact DT.lt_of_not_le hle
      · intro tod2 hp2
        injection hp2 with hp2
        subst hp2
        rfl
  refine ⟨main, ?_⟩
  intro now dA dT ts d hd
  rw [schedule_trades_spec] at hd
  simp only [List.mem_filterMap] at hd
  obtain ⟨t, _, ht⟩ := hd
  exact (main now dA dT t d ht).1

theorem c2_witness : now3 < schedDemo.time :=
  c2_trigger_strictly_future.2 now3 "1000" "1m" trades3 schedDemo (by decide)

/-- C6: computing a descriptor's next occurrence reuses `originalTimeOfDay`
and copies direction, count, amount, trading duration, comment (and the
stored retry budget and `original_time`) unchanged; only the trigger time
changes, set to the day after the current time at `originalTimeOfDay`, so a
second application at `now + 1 day` advances the trigger by exactly one
day. -/
theorem c6_recurrence_structure :
    (∀ (d : Sched) (now : DT) (d1 : Sched),
        nextOccurrence d now = some d1 →
        d1.direction = d.direction ∧ d1.count = d.count ∧
        d1.amount = d.amount ∧ d1.trading_time = d.trading_time ∧
        d1.retry_seconds = d.retry_seconds ∧ d1.comment = d.comment ∧
        d1.original_time = d.original_time ∧
        ∀ tod, parseTimeOfDay d.original_time = some tod →
          d1.time = ⟨now.day + 1, tod⟩) ∧
    (∀ (d : Sched) (now : DT) (d1 d2 : Sched),
        nextOccurrence d now = some d1 →
        nextOccurrence d1 (DT.addDay now) = some d2 →
        d2.time = DT.addDay d1.time ∧ d2.direction = d1.direction ∧
        d2.count = d1.count ∧ d2.amount = d1.amount ∧
        d2.trading_time = d1.trading_time ∧ d2.comment = d1.comment) := by
  have main : ∀ (d : Sched) (now : DT) (d1 : Sched),
      nextOccurrence d now = some d1 →
      d1.direction = d.direction ∧ d1.count = d.count ∧
      d1.amount = d.amount ∧ d1.trading_time = d.trading_time ∧
      d1.retry_seconds = d.retry_seconds ∧ d1.comment = d.comment ∧
      d1.original_time = d.original_time ∧
      ∀ tod, parseTimeOfDay d.original_time = some tod →
        d1.time = ⟨now.day + 1, tod⟩ := by
    intro d now d1 h
    cases hp : parseTimeOfDay d.original_time with
    | none => simp [nextOccurrence, hp] at h
    | some tod =>
      simp only [nextOccurrence, hp, Option.some.injEq] at h
      subst h
      refine ⟨rfl, rfl, rfl, rfl, rfl, rfl, rfl, ?_⟩
      intro tod2 hp2
      injection hp2 with hp2
      subst hp2
      rfl
  refine ⟨main, ?_⟩
  intro d now d1 d2 h1 h2
  obtain ⟨-, -, -, -, -, -, horig, htime⟩ := main d now d1 h1
  obtain ⟨hdir2, hcnt2, ham2, htt2, -, hcom2, -, htime2⟩ :=
    main d1 (DT.addDay now) d2 h2
  cases hp : parseTimeOfDay d.original_time with
  | none => simp [nextOccurrence, hp] at h1
  | some tod =>
    have ht1 : d1.time = ⟨now.day + 1, tod⟩ := htime tod hp
    have hp1 : parseTimeOfDay d1.original_time = some tod := by rw [horig, hp]
    have ht2 : d2.time = ⟨(DT.addDay now).day + 1, tod⟩ := htime2 tod hp1
    refine ⟨?_, hdir2, hcnt2, ham2, htt2, hcom2⟩
    rw [ht2, ht1]
    rfl

theorem c6_witness :
    schedDemoNext.direction = schedDemo.direction ∧
    schedDemoNext.count = schedDemo.count ∧
    schedDemoNext.amount = schedDemo.amount ∧
    schedDemoNext.trading_time = schedDemo.trading_time ∧
    schedDemoNext.retry_seconds = schedDemo.retry_seconds ∧
    schedDemoNext.comment = schedDemo.comment ∧
    schedDemoNext.original_time = schedDemo.original_time ∧
    schedDemoNext.time = ⟨now3.day + 1, 36000000000⟩ := by
  have h := c6_recurrence_structure.1 schedDemo now3 schedDemoNext rfl
  exact ⟨h.1, h.2.1, h.2.2.1, h.2.2.2.1, h.2.2.2.2.1, h.2.2.2.2.2.1,
    h.2.2.2.2.2.2.1, h.2.2.2.2.2.2.2 36000000000 (by decide)⟩

/-- C7 counterexample: a completed execution in which the baseline read is 4
and every later read reports the `get_entry_count` fallback 0 yields
`confirmedCount = -4`, refuting `confirmedCount ≥ 0`. -/
theorem c7_counterexample :
    (outcomeOf (execute_trade cfgOneclick oracleFallbackReads .buy 1 (some 100)
        true)).map (fun o => o.confirmed) = some (-4) ∧ (-4 : Int) < 0 :=
  ⟨rfl, by decide⟩

/-- C7 (amended): in every completed outcome, `confirmedCount` is the integer
`finalCount - B`; it is nonnegative whenever the final read is at least the
baseline, but a final read below the baseline (for example a failed read
reporting the fallback 0) makes it negative. -/
theorem c7_confirmed_nonneg_amended :
    ∀ (cfg : Cfg) (o : UIOracle) (dir : Direction) (count : Nat)
      (rMs : Option Nat) (rst : Bool) (out : Outcome),
      execute_trade cfg o dir count rMs rst = .completed out →
      out.confirmed = (out.final : Int) - (out.base : Int) ∧
      (out.base ≤ out.final → 0 ≤ out.confirmed) := by
  intro cfg o dir count rMs rst out h
  rw [execute_trade_completed cfg o dir count rMs rst out h]
  constructor
  · rfl
  · intro hle
    have hc : (runTrade cfg o count (rMs.getD cfg.defaultRetryMs)).confirmed =
        ((runTrade cfg o count (rMs.getD cfg.defaultRetryMs)).final : Int) -
        ((runTrade cfg o count (rMs.getD cfg.defaultRetryMs)).base : Int) := rfl
    rw [hc]
    omega

theorem c7_witness :
    outInstant.confirmed = (outInstant.final : Int) - (outInstant.base : Int) ∧
    0 ≤ outInstant.confirmed :=
  ⟨(c7_confirmed_nonneg_amended cfgOneclick oracleInstant .buy 1 (some 10000)
      true outInstant rfl).1,
    (c7_confirmed_nonneg_amended cfgOneclick oracleInstant .buy 1 (some 10000)
      true outInstant rfl).2 (by decide)⟩

/-- C8: a malformed time-of-day string causes only that trade to be counted
as a parse error and skipped while all remaining trades are scheduled — the
schedule is exactly the in-order list of descriptors of the trades that
parse, and the error count plus the schedule length is the number of
configured trades; with `"25:99:00"` among three trades, exactly two
descriptors are scheduled and one parse error is reported. -/
theorem c8_parse_error_isolation :
    (∀ (now : DT) (dA dT : String) (ts : List RawTrade),
        (schedule_trades now dA dT ts).1 = ts.filterMap (scheduleOne now dA dT) ∧
        (schedule_trades now dA dT ts).2 =
          ts.countP (fun t => (parseTimeOfDay t.time).isNone) ∧
        (schedule_trades now dA dT ts).1.length + (schedule_trades now dA dT ts).2 =
          ts.length) ∧
    (schedule_trades now3 "1000" "1m" trades3).1.length = 2 ∧
    (schedule_trades now3 "1000" "1m" trades3).2 = 1 ∧
    parseTimeOfDay "25:99:00" = none := by
  refine ⟨?_, by decide, by decide, by decide⟩
  intro now dA dT ts
  refine ⟨?_, ?_, ?_⟩
  · rw [schedule_trades_spec]
  · rw [schedule_trades_spec]
  · rw [schedule_trades_spec]
    have h := filterMap_length_add_countP (scheduleOne now dA dT) ts
    have hsame : ∀ t : RawTrade,
        ((scheduleOne now dA dT t).isNone) = ((parseTimeOfDay t.time).isNone) := by
      intro t
      cases hp : parseTimeOfDay t.time <;> simp [scheduleOne, hp]
    rw [List.countP_congr (fun t _ => by rw [hsame t])] at h
    exact h

/-- C9: one-click mode detection is the absence of the purchase button:
`is_oneclick_trading_enabled` is true exactly when the purchase-button query
finds zero elements (so a selector matching nothing reports one-click mode as
enabled), is false when the query raises, and `enable_oneclick_trading`
reports success exactly when the absence test holds initially or — with a
configured toggle and a successful toggle click — after toggling. -/
theorem c9_oneclick_detection :
    (∀ n, (is_oneclick_trading_enabled (.found n) = true) ↔ n = 0) ∧
    is_oneclick_trading_enabled .raises = false ∧
    is_oneclick_trading_enabled (.found 0) = true ∧
    (∀ (q1 : QueryRes) (ts ck : Bool) (q2 : QueryRes),
        enable_oneclick_trading q1 ts ck q2 =
          (is_oneclick_trading_enabled q1 ||
            (ts && ck && is_oneclick_trading_enabled q2))) ∧
    (∀ (q1 : QueryRes) (ts ck : Bool) (q2 : QueryRes),
        enable_oneclick_trading q1 ts ck q2 = true →
        is_oneclick_trading_enabled q1 = true ∨
        is_oneclick_trading_enabled q2 = true) := by
  have heq : ∀ (q1 : QueryRes) (ts ck : Bool) (q2 : QueryRes),
      enable_oneclick_trading q1 ts ck q2 =
        (is_oneclick_trading_enabled q1 ||
          (ts && ck && is_oneclick_trading_enabled q2)) := by
    intro q1 ts ck q2
    unfold enable_oneclick_trading
    cases h1 : is_oneclick_trading_enabled q1 <;> cases ts <;> cases ck <;> simp
  refine ⟨?_, rfl, rfl, heq, ?_⟩
  · intro n
    simp [is_oneclick_trading_enabled]
  · intro q1 ts ck q2 h
    rw [heq] at h
    cases h1 : is_oneclick_trading_enabled q1
    · cases h2 : is_oneclick_trading_enabled q2
      · rw [h1, h2] at h
        simp at h
      · exact Or.inr rfl
    · exact Or.inl rfl

theorem c9_witness :
    is_oneclick_trading_enabled (.found 0) = true ∨
    is_oneclick_trading_enabled (.found 0) = true :=
  c9_oneclick_detection.2.2.2.2 (.found 0) true true (.found 0) rfl

/-- C10: for every execution that reaches its final entry-count read, the
Boolean result equals `finalCount - B > 0`: a run that reaches the deadline
with zero newly confirmed entries returns failure even though no error
occurred, and a partially fulfilled run with `0 < confirmedCount < count`
returns success despite timing out. -/
theorem c10_result_threshold :
    (∀ (cfg : Cfg) (o : UIOracle) (dir : Direction) (count : Nat)
        (rMs : Option Nat) (rst : Bool) (out : Outcome),
        execute_trade cfg o dir count rMs rst = .completed out →
        out.result = decide (0 < out.confirmed) ∧
        out.confirmed = (out.final : Int) - (out.base : Int)) ∧
    (outcomeOf (execute_trade cfgOneclick oracleNoFill .buy 1 (some 100)
        true)).map (fun o => (o.result, o.confirmed, o.timedOut)) =
      some (false, 0, true) ∧
    (outcomeOf (execute_trade cfgOneclick oracleSpecExample .buy 3 (some 2000)
        true)).map (fun o => (o.result, o.confirmed, o.timedOut)) =
      some (true, 2, true) := by
  refine ⟨?_, rfl, rfl⟩
  intro cfg o dir count rMs rst out h
  rw [execute_trade_completed cfg o dir count rMs rst out h]
  exact ⟨rfl, rfl⟩

/-- C3 counterexample: with no reset recorded, hour 7, the `opt` default
configuration already deleted (`.missing`) and the user configuration file
now malformed (`.decodeError`), `_load_config` calls `sys.exit(1)`; the
resulting `SystemExit` is not an `Exception`, escapes `reload_config`, and
terminates the scheduler thread instead of being logged and retried. -/
theorem c3_counterexample :
    check_daily_reset st0 now7 .missing .decodeError = .error () ∧
    st0.last_reset_date ≠ some now7.day ∧ 7 ≤ now7.hour :=
  ⟨rfl, by decide, by decide⟩

/-- C3 (amended): the daily reset runs at most once per calendar day and only
when the hour is at least 7 — a same-day repeat or an early hour is a no-op;
on success the configuration is replaced, the schedule rebuilt from scratch
and `lastResetDate` set to today; a reload that fails with an ordinary
exception is only logged, leaves the state unchanged and retries next
iteration; but when `_load_config` hits one of its `sys.exit` paths (user
config malformed, or missing with no default) the scheduler thread
terminates. -/
theorem c3_daily_reset_amended :
    (∀ (st : TraderState) (now : DT) (dR uR : ReadOutcome),
        st.last_reset_date = some now.day →
        check_daily_reset st now dR uR = .ok (st, false)) ∧
    (∀ (st : TraderState) (now : DT) (dR uR : ReadOutcome),
        now.hour < 7 →
        check_daily_reset st now dR uR = .ok (st, false)) ∧
    (∀ (st : TraderState) (now : DT) (dR uR : ReadOutcome) (c : Config)
        (ts : List RawTrade),
        st.last_reset_date ≠ some now.day → 7 ≤ now.hour →
        load_config dR uR = .ok c → c.trades = some ts →
        check_daily_reset st now dR uR =
          .ok ({ last_reset_date := some now.day, config := c,
                 scheduled_trades :=
                   (schedule_trades now c.defaultAmount c.defaultTime ts).1 },
               true)) ∧
    (∀ (st : TraderState) (now : DT) (dR : ReadOutcome),
        st.last_reset_date ≠ some now.day → 7 ≤ now.hour →
        check_daily_reset st now dR .ioError = .ok (st, false)) ∧
    (∀ (st : TraderState) (now : DT) (dR uR : ReadOutcome),
        st.last_reset_date ≠ some now.day → 7 ≤ now.hour →
        load_config dR uR = .exits →
        check_daily_reset st now dR uR = .error ()) := by
  refine ⟨?_, ?_, ?_, ?_, ?_⟩
  · intro st now dR uR h
    simp [check_daily_reset, h]
  · intro st now dR uR h
    by_cases h1 : st.last_reset_date = some now.day
    · simp [check_daily_reset, h1]
    · simp [check_daily_reset, h1, h]
  · intro st now dR uR c ts h1 h2 hload htr
    have h2n : ¬ (now.hour < 7) := by omega
    simp [check_daily_reset, reload_config, h1, h2n, hload, htr]
  · intro st now dR h1 h2
    have h2n : ¬ (now.hour < 7) := by omega
    simp [check_daily_reset, reload_config, load_config, h1, h2n]
  · intro st now dR uR h1 h2 hload
    have h2n : ¬ (now.hour < 7) := by omega
    simp [check_daily_reset, reload_config, h1, h2n, hload]

theorem c3_witness :
    check_daily_reset st0 now7 .missing (.ok cDemo) =
      .ok ({ last_reset_date := some now7.day, config := cDemo,
             scheduled_trades :=
               (schedule_trades now7 cDemo.defaultAmount cDemo.defaultTime
                 trades3).1 },
           true) :=
  c3_daily_reset_amended.2.2.1 st0 now7 .missing (.ok cDemo) cDemo trades3
    (by decide) (by decide) rfl rfl

/-- C4 counterexample: in one-click mode with `count = 1`, an execution whose
first confirmation read misses and whose single confirmation-retry click
succeeds issues two direction-button clicks in iteration 0, refuting
"exactly one direction-action click per iteration". -/
theorem c4_counterexample :
    (outcomeOf (execute_trade cfgOneclick oracleOneRetry .buy 1 (some 10000)
        true)).map (fun o => (o.dirClicks, o.purClicks)) = some ([0, 0], []) ∧
    List.count 0 [0, 0] = 2 :=
  ⟨rfl, by decide⟩

/-- C4 (amended): when one-click mode is enabled, zero submission clicks are
issued unconditionally, and in runs where every iteration's first
confirmation read reaches its expected count (no confirmation retries, no
element timeouts, no amount failures, deadline not hit) each of the `count`
iterations issues exactly one direction-action click; when one-click mode is
disabled, in such runs the direction action is clicked only on iteration 0
and the submission action exactly once per iteration.  Confirmation retries
re-click the appropriate action additional times (see the counterexample). -/
theorem c4_click_pattern_amended :
    (∀ (o : UIOracle) (count base b : Nat),
        (∀ k, o.amount k = (true, 0)) → (∀ k, o.wait k = some 0) →
        (∀ k, k ≤ count → o.entry k = base + k) →
        o.timeSelDur = 0 → o.oneclickDur = 0 → 500 * count ≤ b →
        dirClicksOf (execute_trade ⟨true, true, true, true, true, 0, 10000⟩ o
            .buy count (some b) true) = List.range count ∧
        purClicksOf (execute_trade ⟨true, true, true, true, true, 0, 10000⟩ o
            .buy count (some b) true) = []) ∧
    (∀ (o : UIOracle) (count base b : Nat),
        (∀ k, o.amount k = (true, 0)) → (∀ k, o.wait k = some 0) →
        (∀ k, k ≤ count → o.entry k = base + k) →
        o.timeSelDur = 0 → o.purchaseAvail = true → 1 ≤ count → 500 * count ≤ b →
        dirClicksOf (execute_trade ⟨true, true, true, true, false, 0, 10000⟩ o
            .buy count (some b) true) = [0] ∧
        purClicksOf (execute_trade ⟨true, true, true, true, false, 0, 10000⟩ o
            .buy count (some b) true) = List.range count) ∧
    (∀ (cfg : Cfg) (o : UIOracle) (dir : Direction) (count : Nat)
        (rMs : Option Nat) (rst : Bool) (out : Outcome),
        cfg.useOneclick = true →
        execute_trade cfg o dir count rMs rst = .completed out →
        out.purClicks = []) := by
  refine ⟨?_, ?_, ?_⟩
  · intro o count base b ham hwt hent hts hoc hb
    have hel0 : (initSt o true).elapsed = 500 * 0 := by
      show o.timeSelDur + o.oneclickDur = 500 * 0
      omega
    have hloop := iterLoop_clean_oneclick o b base ham hwt count 0
      (initSt o true)
      (by intro k hk; exact hent k (by omega)) rfl rfl rfl hel0 rfl
      (by omega)
    simp only [Nat.zero_add] at hloop
    have hbase : o.entry 0 = base := by
      have h0 := hent 0 (by omega)
      omega
    have hexec : execute_trade ⟨true, true, true, true, true, 0, 10000⟩ o .buy
        count (some b) true =
        .completed (runTrade ⟨true, true, true, true, true, 0, 10000⟩ o count b) :=
      rfl
    rw [hexec]
    constructor
    · show (iterLoop o true 0 b (o.entry 0) count 0 (initSt o true)).dirClicks =
        List.range count
      rw [hbase, hloop]
      simp [initSt, List.range_eq_range']
    · show (iterLoop o true 0 b (o.entry 0) count 0 (initSt o true)).purClicks = []
      rw [hbase, hloop]
      rfl
  · intro o count base b ham hwt hent hts hpa hcount hb
    obtain ⟨rem, rfl⟩ : ∃ rem, count = rem + 1 :=
      ⟨count - 1, by omega⟩
    have hel0 : (initSt o false).elapsed = 0 := by
      show o.timeSelDur + 0 = 0
      omega
    have hlt : ¬ (b ≤ (initSt o false).elapsed) := by
      rw [hel0]
      omega
    have hstep := iterLoop_cont_step o false 0 b base rem 0 (initSt o false)
      _ hlt
      (iterBody_clean_std_zero o b base _ ham hwt (hent 1 (by omega)) rfl rfl
        rfl hel0 rfl)
    have hloop := iterLoop_clean_std o b base ham hwt rem 1
      { elapsed := 500, ecIdx := 2, amIdx := 1, wtIdx := 2,
        dirClicks := (initSt o false).dirClicks ++ [0],
        purClicks := (initSt o false).purClicks ++ [0], timedOut := false }
      (by intro k hk; exact hent k (by omega)) (by omega) rfl rfl rfl rfl rfl
      (by omega)
    have hbase : o.entry 0 = base := by
      have h0 := hent 0 (by omega)
      omega
    have hexec : execute_trade ⟨true, true, true, true, false, 0, 10000⟩ o .buy
        (rem + 1) (some b) true =
        .completed (runTrade ⟨true, true, true, true, false, 0, 10000⟩ o
          (rem + 1) b) := by
      simp [execute_trade, hpa]
    rw [hexec]
    have hr : List.range' 0 (rem + 1) = 0 :: List.range' 1 rem :=
      List.range'_succ 0 rem 1
    constructor
    · show (iterLoop o false 0 b (o.entry 0) (rem + 1) 0 (initSt o false)).dirClicks
        = [0]
      rw [hbase, hstep, hloop]
      simp [initSt]
    · show (iterLoop o false 0 b (o.entry 0) (rem + 1) 0 (initSt o false)).purClicks
        = List.range (rem + 1)
      rw [hbase, hstep, hloop]
      simp [initSt, List.range_eq_range', hr]
  · intro cfg o dir count rMs rst out hoc h
    rw [execute_trade_completed cfg o dir count rMs rst out h]
    show (iterLoop o cfg.useOneclick cfg.waitMs (rMs.getD cfg.defaultRetryMs)
      (o.entry 0) count 0 (initSt o cfg.useOneclick)).purClicks = []
    rw [hoc]
    rw [iterLoop_purClicks_oneclick]
    rfl

theorem c4_witness :
    (dirClicksOf (execute_trade ⟨true, true, true, true, true, 0, 10000⟩
        oracleInstant .buy 2 (some 2000) true) = List.range 2 ∧
      purClicksOf (execute_trade ⟨true, true, true, true, true, 0, 10000⟩
        oracleInstant .buy 2 (some 2000) true) = []) ∧
    (dirClicksOf (execute_trade ⟨true, true, true, true, false, 0, 10000⟩
        oracleInstant .buy 2 (some 2000) true) = [0] ∧
      purClicksOf (execute_trade ⟨true, true, true, true, false, 0, 10000⟩
        oracleInstant .buy 2 (some 2000) true) = List.range 2) :=
  ⟨c4_click_pattern_amended.1 oracleInstant 2 0 2000 (fun _ => rfl)
      (fun _ => rfl) (fun k _ => by simp [oracleInstant]) rfl rfl (by omega),
    c4_click_pattern_amended.2.1 oracleInstant 2 0 2000 (fun _ => rfl)
      (fun _ => rfl) (fun k _ => by simp [oracleInstant]) rfl rfl (by omega)
      (by omega)⟩

/-- C5 counterexample: with a 5 s budget and a direction element that never
becomes clickable, the run returns only at 5.5 s — more than one 100 ms poll
interval past the deadline (the overrun is one full element-wait timeout plus
the fixed sleeps), refuting "within 5 s plus or minus one poll interval". -/
theorem c5_counterexample :
    (outcomeOf (execute_trade cfgStandard oracleStuckElement .buy 1 (some 5000)
        true)).map (fun o => (o.elapsedMs, o.timedOut)) = some (5500, true) ∧
    ¬ (5500 ≤ 5000 + 100) :=
  ⟨rfl, by decide⟩

/-- C5 (amended): the retry deadline is a single wall-clock budget measured
from the start of the whole descriptor's execution and never reset per
iteration: once `budget ≤ elapsed` holds at the start of an iteration the
remaining iterations are aborted, the confirmation-retry loop exits under the
same test, and every completed run returns within the budget plus at most one
iteration's worth of waits and sleeps (bounded by the `set_amount` duration
bound `A`, the 5 s element-wait timeouts and the fixed sleeps) — not within
one 100 ms poll interval — rather than hanging indefinitely. -/
theorem c5_deadline_amended :
    (∀ (o : UIOracle) (oc : Bool) (w budget base rem i : Nat) (s : LoopSt),
        budget ≤ s.elapsed →
        iterLoop o oc w budget base (rem + 1) i s = { s with timedOut := true }) ∧
    (∀ (o : UIOracle) (oc : Bool) (w budget e i f : Nat) (s : LoopSt),
        budget ≤ s.elapsed → retryLoop o oc w budget e i f s = s) ∧
    (∀ (cfg : Cfg) (o : UIOracle) (dir : Direction) (count : Nat)
        (rMs : Option Nat) (rst : Bool) (out : Outcome) (A : Nat),
        (∀ k, (o.amount k).2 ≤ A) →
        execute_trade cfg o dir count rMs rst = .completed out →
        out.elapsedMs ≤
          max (o.timeSelDur + (if cfg.useOneclick then o.oneclickDur else 0))
            (rMs.getD cfg.defaultRetryMs +
              (A + cfg.waitMs * 3 / 10 + 2 * cfg.waitMs + 10500))) := by
  refine ⟨?_, ?_, ?_⟩
  · intro o oc w budget base rem i s h
    exact iterLoop_of_deadline o oc w budget base rem i s h
  · intro o oc w budget e i f s h
    exact retryLoop_of_deadline o oc w budget e i f s h
  · intro cfg o dir count rMs rst out A hA h
    rw [execute_trade_completed cfg o dir count rMs rst out h]
    have hfield : (runTrade cfg o count (rMs.getD cfg.defaultRetryMs)).elapsedMs =
        (iterLoop o cfg.useOneclick cfg.waitMs (rMs.getD cfg.defaultRetryMs)
          (o.entry 0) count 0 (initSt o cfg.useOneclick)).elapsed := rfl
    rw [hfield]
    have hinit : (initSt o cfg.useOneclick).elapsed =
        o.timeSelDur + (if cfg.useOneclick then o.oneclickDur else 0) := rfl
    have hle := iterLoop_elapsed_le o cfg.useOneclick cfg.waitMs
      (rMs.getD cfg.defaultRetryMs) (o.entry 0) A hA count 0
      (initSt o cfg.useOneclick)
    rw [hinit] at hle
    exact hle

theorem c5_witness :
    outStuck.elapsedMs ≤
      max (oracleStuckElement.timeSelDur +
          (if cfgStandard.useOneclick then oracleStuckElement.oneclickDur else 0))
        ((some 5000).getD cfgStandard.defaultRetryMs +
          (350 + cfgStandard.waitMs * 3 / 10 + 2 * cfgStandard.waitMs + 10500)) :=
  c5_deadline_amended.2.2 cfgStandard oracleStuckElement .buy 1 (some 5000) true
    outStuck 350 (fun _ => Nat.le_refl 350) rfl

theorem c10_witness :
    outSpecExample.result = decide (0 < outSpecExample.confirmed) ∧
    outSpecExample.confirmed =
      (outSpecExample.final : Int) - (outSpecExample.base : Int) :=
  c10_result_threshold.1 cfgOneclick oracleSpecExample .buy 3 (some 2000) true
    outSpecExample rfl

end TheOption
